import Mathlib

/-!
Shallow embedding of the `prow` list-watch synchronization bridge of
ci-search (`cmd/search/http.go`, package `prow` portion): the `Lister`,
the `ListWatcher`, and the `periodicWatcher` state machine, together
with the pieces of the Kubernetes / Go standard libraries their
behaviour depends on (watch events, status objects, duration
formatting, timestamp parsing, channel and mutex semantics).

Machine integers do not occur on the paths embedded here; durations are
modelled as non-negative nanosecond counts (the configured watch
interval comes from a parsed non-negative configuration duration).
-/

namespace CiSearch

/-! ## Go duration formatting (`time.Duration.String`), used by the expiry
message `fmt.Sprintf("watch closed after %s, resync required", w.interval)`. -/

/-- Helper modelling Go `time/time.go fmtFrac`: formats the `prec`
low-order decimal digits of `u` as a fraction, omitting trailing zeros
and omitting the decimal point when the fraction is all zeros; returns
the fraction string and the remaining integer part. -/
def goFmtFrac : Nat → Nat → Bool → String → String × Nat
  | u, 0, print, acc => (if print then "." ++ acc else "", u)
  | u, prec + 1, print, acc =>
    let digit := u % 10
    let print2 := print || decide (digit ≠ 0)
    let acc2 := if print2 then String.mk [Char.ofNat (48 + digit)] ++ acc else acc
    goFmtFrac (u / 10) prec print2 acc2

/-- Modelled from the Go standard library: `time.Duration.String` for a
non-negative duration of `d` nanoseconds ("0s", "1.5s", "1m30s",
"250ms", ...). -/
def goDurationString (d : Nat) : String :=
  if d = 0 then "0s"
  else if d < 1000 then Nat.repr d ++ "ns"
  else if d < 1000000 then
    let p := goFmtFrac d 3 false ""
    Nat.repr p.2 ++ p.1 ++ "µs"
  else if d < 1000000000 then
    let p := goFmtFrac d 6 false ""
    Nat.repr p.2 ++ p.1 ++ "ms"
  else
    let p := goFmtFrac d 9 false ""
    let secs := p.2
    let s0 := Nat.repr (secs % 60) ++ p.1 ++ "s"
    let mins := secs / 60
    if mins = 0 then s0
    else
      let s1 := Nat.repr (mins % 60) ++ "m" ++ s0
      let hours := mins / 60
      if hours = 0 then s1 else Nat.repr hours ++ "h" ++ s1

/-! ## Timestamp parsing: `metav1.Time.UnmarshalQueryParameter`, backed by Go
`time.Parse(time.RFC3339, s)`. `ListWatcher.Watch` calls this on the supplied
resource-version token. -/

/-- Components of a parsed Go `time.Time` as far as this program can
observe them (the parsed resource version is stored on the watcher and
never consulted again). -/
structure GoTime where
  year : Nat
  month : Nat
  day : Nat
  hour : Nat
  minute : Nat
  second : Nat
  nanos : Nat
  offsetMinutes : Int
deriving DecidableEq

/-- Go's zero time (`time.Time{}`): January 1 of year 1, 00:00:00 UTC. -/
def goZeroTime : GoTime := ⟨1, 1, 1, 0, 0, 0, 0, 0⟩

/-- Value of a decimal digit character, `none` on a non-digit. -/
def digitVal (c : Char) : Option Nat :=
  if c.isDigit then some (c.toNat - 48) else none

/-- Parse exactly two decimal digit characters. -/
def parse2 (a b : Char) : Option Nat := do
  let x ← digitVal a
  let y ← digitVal b
  pure (10 * x + y)

/-- Parse exactly four decimal digit characters. -/
def parse4 (a b c d : Char) : Option Nat := do
  let x ← parse2 a b
  let y ← parse2 c d
  pure (100 * x + y)

/-- Gregorian leap-year rule, as in Go `time.isLeap`. -/
def isLeapYear (y : Nat) : Bool :=
  y % 4 = 0 && (y % 100 ≠ 0 || y % 400 = 0)

/-- Days in a month, as in Go `time.daysIn`. -/
def daysIn (month year : Nat) : Nat :=
  if month = 2 then (if isLeapYear year then 29 else 28)
  else if month = 4 ∨ month = 6 ∨ month = 9 ∨ month = 11 then 30
  else 31

/-- Numeric value of a string of decimal digit characters. -/
def digitsToNat (l : List Char) : Nat :=
  l.foldl (fun acc c => 10 * acc + (c.toNat - 48)) 0

/-- Parse an optional fractional-second suffix `.ddd...` (Go keeps
nanosecond precision, scaling the digits read to nine places); returns
the nanoseconds and the unconsumed remainder. -/
def parseFracSeconds (l : List Char) : Nat × List Char :=
  match l with
  | '.' :: c :: rest =>
    if c.isDigit then
      let p := (c :: rest).span Char.isDigit
      let digits := p.1
      (digitsToNat (digits.take 9) * 10 ^ (9 - digits.length), p.2)
    else (0, l)
  | _ => (0, l)

/-- Parse the RFC3339 zone suffix: `Z` or `±hh:mm`; returns the offset
east of UTC in minutes. -/
def parseZone (l : List Char) : Option Int :=
  match l with
  | ['Z'] => some 0
  | [sign, h1, h2, ':', m1, m2] => do
    let h ← parse2 h1 h2
    let m ← parse2 m1 m2
    if h ≤ 23 ∧ m ≤ 59 then
      if sign = '+' then some (Int.ofNat (60 * h + m))
      else if sign = '-' then some (-(Int.ofNat (60 * h + m)))
      else none
    else none
  | _ => none

/-- Modelled from the Go standard library: `time.Parse(time.RFC3339, s)`
restricted to what it accepts for the RFC3339 layout
`2006-01-02T15:04:05Z07:00`: date and clock digits in range, an optional
fractional second, and a `Z` or `±hh:mm` zone. Returns `none` exactly
when Go returns a parse error. -/
def parseRFC3339 (s : String) : Option GoTime :=
  match s.data with
  | y1 :: y2 :: y3 :: y4 :: '-' :: mo1 :: mo2 :: '-' :: d1 :: d2 :: 'T' ::
      h1 :: h2 :: ':' :: mi1 :: mi2 :: ':' :: sec1 :: sec2 :: rest => do
    let year ← parse4 y1 y2 y3 y4
    let month ← parse2 mo1 mo2
    let day ← parse2 d1 d2
    let hour ← parse2 h1 h2
    let minute ← parse2 mi1 mi2
    let second ← parse2 sec1 sec2
    if 1 ≤ month ∧ month ≤ 12 ∧ 1 ≤ day ∧ day ≤ daysIn month year ∧
        hour ≤ 23 ∧ minute ≤ 59 ∧ second ≤ 59 then
      let fz := parseFracSeconds rest
      let off ← parseZone fz.2
      some ⟨year, month, day, hour, minute, second, fz.1, off⟩
    else none
  | _ => none

/-- Modelled from the library: `metav1.Time.UnmarshalQueryParameter`
(k8s.io/apimachinery). An empty token and the literal `"null"` decode to
the zero time; anything else must parse as RFC3339 or the parse error is
returned. -/
def unmarshalQueryParameter (str : String) : Except String GoTime :=
  if str.length = 0 then Except.ok goZeroTime
  else if str = "null" then Except.ok goZeroTime
  else
    match parseRFC3339 str with
    | some t => Except.ok t
    | none => Except.error ("parsing time " ++ str ++ " as RFC3339: cannot parse")

/-! ## Data model: jobs, errors, selectors, the indexer interface. -/

/-- Modelled from the spec: the `Job` record (its struct lives in a file
of the package outside the embedded source; only its uses appear here).
"identity (string, unique, used as cache key), lifecycle state ..., a
timestamp, and a reference (URL or path) to where its artifacts live";
`labelSet` is the label metadata `meta.Accessor` exposes for selector
matching. The `Lister` treats records opaquely, so only identity and
labels are ever consulted below. -/
structure Job where
  id : String
  state : String
  startTime : Int
  url : String
  labelSet : List (String × String)
deriving DecidableEq

/-- Group/resource metadata carried by a not-found error
(`schema.GroupResource`). -/
structure GroupResource where
  group : String
  resource : String
deriving DecidableEq

/-- Universe of Go `error` values flowing through the embedded code: the
typed not-found status produced by `errors.NewNotFound`, and any other
error treated opaquely. -/
inductive KError where
  | statusNotFound (resource : GroupResource) (name : String)
  | other (msg : String)
deriving DecidableEq

/-- Discriminates the typed not-found condition, as `errors.IsNotFound`
does for callers. -/
def KError.isNotFound : KError → Bool
  | KError.statusNotFound _ _ => true
  | KError.other _ => false

/-- Modelled from the library: a `labels.Selector` is a conjunction of
requirements over a label set; an empty requirement list is
`labels.Everything()` and matches every record. -/
structure Selector where
  requirements : List (List (String × String) → Bool)

/-- Whether every requirement of the selector holds on a label set
(`Selector.Matches`). -/
def Selector.matchesLabels (s : Selector) (lbls : List (String × String)) : Bool :=
  s.requirements.all (fun r => r lbls)

/-- The external `cache.Indexer` as the `Lister` consumes it: a keyed
lookup (`GetByKey`, returning the item, or nothing, or an error), the
store enumeration (`List`), and the label metadata `meta.Accessor`
extracts from each stored item (which can in principle error). -/
structure Indexer where
  getByKey : String → Except KError (Option Job)
  storeList : List Job
  accessorLabels : Job → Except KError (List (String × String))

/-! ## Lister (`NewLister`, `Lister.Get`, `Lister.List`). -/

/-- The `Lister` struct: an indexer plus the group/resource metadata
used to tag not-found errors. -/
structure Lister where
  indexer : Indexer
  resource : GroupResource

/-- Embedding of `NewLister`: binds the indexer and the fixed
`search.openshift.io/prow` group-resource. -/
def NewLister (indexer : Indexer) : Lister :=
  { indexer := indexer,
    resource := { group := "search.openshift.io", resource := "prow" } }

/-- Embedding of `Lister.Get`. The Go method's only interaction with the
cache is the `GetByKey` read; the second component is the lister (and
thus the cache) after the call, unchanged. -/
def Lister.Get (s : Lister) (id : String) : Except KError Job × Lister :=
  (match s.indexer.getByKey id with
   | Except.error e => Except.error e
   | Except.ok none => Except.error (KError.statusNotFound s.resource id)
   | Except.ok (some job) => Except.ok job,
   s)

/-- Modelled from the library: `cache.ListAll` iterates the store in
order, reads each item's label metadata through `meta.Accessor`
(stopping at the first accessor error), and appends every item matching
the selector. Like the Go original it returns both the records appended
so far and the error, the error being `none` on success. -/
def cacheListAll (store : List Job) (selector : Selector)
    (accessor : Job → Except KError (List (String × String))) :
    List Job × Option KError :=
  match store with
  | [] => ([], none)
  | j :: rest =>
    match accessor j with
    | Except.error e => ([], some e)
    | Except.ok lbls =>
      let tailRes := cacheListAll rest selector accessor
      (if selector.matchesLabels lbls then j :: tailRes.1 else tailRes.1, tailRes.2)

/-- Embedding of `Lister.List`: delegates to `cache.ListAll` over the
indexer, appending each matching record. -/
def Lister.ListJobs (s : Lister) (selector : Selector) : List Job × Option KError :=
  cacheListAll s.indexer.storeList selector s.indexer.accessorLabels

/-! ## Watch events and status objects. -/

/-- Event types of the `watch` package used by this code. -/
inductive EventType where
  | added
  | modified
  | deleted
  | error
deriving DecidableEq

/-- The `metav1.Status` payload carried by the one event this code
emits. -/
structure StatusObj where
  status : String
  code : Nat
  reason : String
  message : String
deriving DecidableEq

/-- Modelled from the library: `errors.NewResourceExpired(msg).ErrStatus`
is a failure status with HTTP code 410 (Gone) and reason `Expired`. -/
def resourceExpiredStatus (message : String) : StatusObj :=
  { status := "Failure", code := 410, reason := "Expired", message := message }

/-- A `watch.Event` as this code constructs it: a type tag and the
status object. -/
structure WatchEvent where
  type : EventType
  object : StatusObj
deriving DecidableEq

/-- The single event `periodicWatcher.run` can ever send:
`watch.Event{Type: watch.Error, Object: resource-expired status}` whose
message names the elapsed interval. -/
def expiryEvent (interval : Nat) : WatchEvent :=
  { type := EventType.error,
    object := resourceExpiredStatus
      ("watch closed after " ++ goDurationString interval ++ ", resync required") }

/-! ## ListWatcher (`ListWatcher.List`, `ListWatcher.Watch`). -/

/-- Decidable equality for `Except` values, so the embedding can be
evaluated at concrete inputs. -/
instance {ε α : Type} [DecidableEq ε] [DecidableEq α] : DecidableEq (Except ε α) := fun a b =>
  match a, b with
  | Except.ok x, Except.ok y =>
    if h : x = y then isTrue (by rw [h]) else isFalse (by intro hc; cases hc; exact h rfl)
  | Except.error x, Except.error y =>
    if h : x = y then isTrue (by rw [h]) else isFalse (by intro hc; cases hc; exact h rfl)
  | Except.ok _, Except.error _ => isFalse (by intro hc; cases hc)
  | Except.error _, Except.ok _ => isFalse (by intro hc; cases hc)

/-- The fields of `metav1.ListOptions` this code could observe. `List`
ignores all of them; `Watch` reads only `resourceVersion`. -/
structure ListOptions where
  labelSelector : String
  fieldSelector : String
  resourceVersion : String
  timeoutSeconds : Option Int
deriving DecidableEq

/-- The `ListWatcher` struct: the remote job client (modelled by the
result its single `ListJobs` fetch-all call would produce) and the
configured maximum watch interval in nanoseconds. -/
structure ListWatcher where
  fetchAll : Except KError (List Job)
  interval : Nat
deriving DecidableEq

/-- Embedding of `ListWatcher.List`: one synchronous `client.ListJobs`
call; the error branch returns the error as-is, the success branch the
fetched collection as-is. The second component counts the remote calls
the method performed. -/
def ListWatcher.ListSnapshot (lw : ListWatcher) (options : ListOptions) :
    Except KError (List Job) × Nat :=
  match lw.fetchAll with
  | Except.error e => (Except.error e, 1)
  | Except.ok list => (Except.ok list, 1)

/-! ## The periodicWatcher state machine.

The Go `periodicWatcher` owns a buffered event channel (`ch`, capacity
100), a done channel, and a mutex-guarded `closed` flag; a background
goroutine (`run`) races the interval timer against the done channel and
always closes `ch` on exit; `Stop` runs the guarded `stop` and then
drains `ch` until it observes the close. The embedding is a small-step
transition system: `step` maps a state and an atomic action of some
thread to an outcome (the new state, "that thread is blocked / the
action is not enabled", or "a runtime panic occurred"). -/

/-- Program counter of the `run` goroutine: blocked in the select;
about to send the expiry event; about to call `w.stop()`; about to run
the deferred `close(w.ch)`; exited. -/
inductive RunPC where
  | selecting
  | sending
  | stopping
  | closing
  | exited
deriving DecidableEq

/-- Program counter of one `Stop()` caller: about to run `w.stop()`;
draining the channel; returned. -/
inductive StopPC where
  | entered
  | draining
  | returned
deriving DecidableEq

/-- A Go channel of watch events: capacity, buffered (sent but not yet
received) events, and whether it has been closed. -/
structure GoChan where
  cap : Nat
  buf : List WatchEvent
  closed : Bool
deriving DecidableEq

/-- State of one `periodicWatcher` together with its background
goroutine and any `Stop()` callers. `sent` records every event ever
sent on `ch` (instrumentation); `doneCloseCount` and `chCloseCount`
count the `close(w.done)` and `close(w.ch)` operations actually
executed. -/
structure PW where
  lw : ListWatcher
  interval : Nat
  rv : GoTime
  ch : GoChan
  doneClosed : Bool
  closed : Bool
  runPC : RunPC
  stoppers : List StopPC
  sent : List WatchEvent
  doneCloseCount : Nat
  chCloseCount : Nat
deriving DecidableEq

/-- Embedding of `newPeriodicWatcher`: a fresh watcher with an event
channel of capacity 100, an open done channel, a cleared closed flag,
and the `run` goroutine started (sitting at its select). -/
def newPeriodicWatcher (lw : ListWatcher) (interval : Nat) (rv : GoTime) : PW :=
  { lw := lw
    interval := interval
    rv := rv
    ch := { cap := 100, buf := [], closed := false }
    doneClosed := false
    closed := false
    runPC := RunPC.selecting
    stoppers := []
    sent := []
    doneCloseCount := 0
    chCloseCount := 0 }

/-- Embedding of `ListWatcher.Watch`: parse the resource-version token;
on a parse error return it at once (no watcher is constructed, no
goroutine started); on success construct and start a fresh
`periodicWatcher` bound to the configured interval. -/
def ListWatcher.Watch (lw : ListWatcher) (options : ListOptions) : Except String PW :=
  match unmarshalQueryParameter options.resourceVersion with
  | Except.error e => Except.error e
  | Except.ok rv => Except.ok (newPeriodicWatcher lw lw.interval rv)

/-- Atomic actions of the watcher's threads. The select of `run` is
split into its two branches (`timerFire`: the interval timer fires and
the select takes that case; `selectDone`: the select takes the done
case, possible only once the done channel is closed). `stopBegin`
models the owner invoking `Stop()` (a new caller appears); `stopInner`,
`drainRecv` and `drainFin` are the steps of caller `i`. -/
inductive Act where
  | timerFire
  | selectDone
  | send
  | runStopCall
  | closeCh
  | stopBegin
  | stopInner (i : Nat)
  | drainRecv (i : Nat)
  | drainFin (i : Nat)
deriving DecidableEq

/-- Result of one atomic step. -/
inductive Outcome where
  | ok (s : PW)
  | blocked
  | panicked
deriving DecidableEq

/-- The body of `periodicWatcher.stop()` executed atomically under the
mutex: if the flag is not yet set, close the done channel (a panic if
it were somehow already closed) and set the flag. -/
def stopBody (s : PW) : Option PW :=
  if s.closed then some s
  else if s.doneClosed then none
  else some { s with doneClosed := true, closed := true,
                     doneCloseCount := s.doneCloseCount + 1 }

/-- Small-step semantics of the watcher. Sends on a closed channel and
closes of a closed channel panic, as in Go; a send on a full buffer and
a receive on an empty open channel block. -/
def step (s : PW) (a : Act) : Outcome :=
  match a with
  | Act.timerFire =>
    if s.runPC = RunPC.selecting then Outcome.ok { s with runPC := RunPC.sending }
    else Outcome.blocked
  | Act.selectDone =>
    if s.runPC = RunPC.selecting then
      if s.doneClosed then Outcome.ok { s with runPC := RunPC.closing }
      else Outcome.blocked
    else Outcome.blocked
  | Act.send =>
    if s.runPC = RunPC.sending then
      if s.ch.closed then Outcome.panicked
      else if s.ch.buf.length < s.ch.cap then
        Outcome.ok { s with
          ch := { s.ch with buf := s.ch.buf ++ [expiryEvent s.interval] },
          sent := s.sent ++ [expiryEvent s.interval],
          runPC := RunPC.stopping }
      else Outcome.blocked
    else Outcome.blocked
  | Act.runStopCall =>
    if s.runPC = RunPC.stopping then
      match stopBody s with
      | none => Outcome.panicked
      | some s2 => Outcome.ok { s2 with runPC := RunPC.closing }
    else Outcome.blocked
  | Act.closeCh =>
    if s.runPC = RunPC.closing then
      if s.ch.closed then Outcome.panicked
      else Outcome.ok { s with
        ch := { s.ch with closed := true },
        runPC := RunPC.exited,
        chCloseCount := s.chCloseCount + 1 }
    else Outcome.blocked
  | Act.stopBegin =>
    Outcome.ok { s with stoppers := s.stoppers ++ [StopPC.entered] }
  | Act.stopInner i =>
    match s.stoppers.get? i with
    | some StopPC.entered =>
      match stopBody s with
      | none => Outcome.panicked
      | some s2 => Outcome.ok { s2 with stoppers := s2.stoppers.set i StopPC.draining }
    | _ => Outcome.blocked
  | Act.drainRecv i =>
    match s.stoppers.get? i with
    | some StopPC.draining =>
      match s.ch.buf with
      | [] => Outcome.blocked
      | _ :: rest => Outcome.ok { s with ch := { s.ch with buf := rest } }
    | _ => Outcome.blocked
  | Act.drainFin i =>
    match s.stoppers.get? i with
    | some StopPC.draining =>
      if s.ch.buf = [] then
        if s.ch.closed then
          Outcome.ok { s with stoppers := s.stoppers.set i StopPC.returned }
        else Outcome.blocked
      else Outcome.blocked
    | _ => Outcome.blocked

/-- Run a list of actions from a state; the first blocked or panicking
action aborts the run with that outcome. -/
def exec (s : PW) : List Act → Outcome
  | [] => Outcome.ok s
  | a :: rest =>
    match step s a with
    | Outcome.ok s2 => exec s2 rest
    | Outcome.blocked => Outcome.blocked
    | Outcome.panicked => Outcome.panicked

/-! ## Invariants of the watcher state machine. -/

/-- Invariant of every reachable watcher state: the mutex-guarded flag
and the done channel agree; the event channel is closed exactly when
the `run` goroutine has exited; the capacity stays 100; at most the one
expiry event is ever sent; the buffer never holds more than was sent;
nothing is sent before the timer branch runs; the flag is set once
`run` is past its stop call; the close counters track the flags; a
draining or returned stopper has already executed the guarded stop; and
a returned stopper has seen the channel closed and drained. -/
structure Inv (s : PW) : Prop where
  flagsEq : s.closed = s.doneClosed
  chClosedIffExited : s.ch.closed = true ↔ s.runPC = RunPC.exited
  cap100 : s.ch.cap = 100
  sentForm : s.sent = [] ∨ s.sent = [expiryEvent s.interval]
  bufLen : s.ch.buf.length ≤ s.sent.length
  preSendEmpty : s.runPC = RunPC.selecting ∨ s.runPC = RunPC.sending → s.sent = []
  closedLate : s.runPC = RunPC.closing ∨ s.runPC = RunPC.exited → s.closed = true
  doneCount : s.doneCloseCount = if s.doneClosed then 1 else 0
  chCount : s.chCloseCount = if s.ch.closed then 1 else 0
  stopperStopped : ∀ pc ∈ s.stoppers,
    (pc = StopPC.draining ∨ pc = StopPC.returned) → s.closed = true
  returnedClosed : ∀ pc ∈ s.stoppers, pc = StopPC.returned → s.ch.closed = true
  returnedBufEmpty : ∀ pc ∈ s.stoppers, pc = StopPC.returned → s.ch.buf = []

theorem inv_init (lw : ListWatcher) (interval : Nat) (rv : GoTime) :
    Inv (newPeriodicWatcher lw interval rv) := by
  constructor <;> simp [newPeriodicWatcher]

/-- Destructuring of a successful `stopBody` run: either the flag was
already set and the state is untouched, or the flag was clear, the done
channel open, and both get set with the close counter bumped. -/
theorem stopBody_some {s s2 : PW} (h : stopBody s = some s2) :
    (s.closed = true ∧ s2 = s) ∨
    (s.closed = false ∧ s.doneClosed = false ∧
      s2 = { s with doneClosed := true, closed := true,
                    doneCloseCount := s.doneCloseCount + 1 }) := by
  unfold stopBody at h
  split at h
  · cases h
    exact Or.inl ⟨by assumption, rfl⟩
  · split at h
    · cases h
    · cases h
      exact Or.inr ⟨by simp_all, by simp_all, rfl⟩

/-- Facts preserved by every successful step: the static fields never
change; the two close flags and the guarded flag are monotone; once the
`run` goroutine has exited it stays exited and nothing more is sent. -/
theorem step_facts {s s2 : PW} {a : Act} (h : step s a = Outcome.ok s2) :
    s2.interval = s.interval ∧ s2.rv = s.rv ∧ s2.lw = s.lw ∧ s2.ch.cap = s.ch.cap ∧
    (s.doneClosed = true → s2.doneClosed = true) ∧
    (s.ch.closed = true → s2.ch.closed = true) ∧
    (s.closed = true → s2.closed = true) ∧
    (s.runPC = RunPC.exited → s2.runPC = RunPC.exited ∧ s2.sent = s.sent) := by
  cases a with
  | runStopCall =>
    simp only [step] at h
    split at h
    case isTrue hpc =>
      split at h
      next => cases h
      next s2x heq =>
        cases h
        rcases stopBody_some heq with ⟨hcl, rfl⟩ | ⟨hcl, hnd, rfl⟩ <;> simp_all
    case isFalse => cases h
  | stopInner i =>
    simp only [step] at h
    split at h
    next heq0 =>
      split at h
      next => cases h
      next s2x heq =>
        cases h
        rcases stopBody_some heq with ⟨hcl, rfl⟩ | ⟨hcl, hnd, rfl⟩ <;> simp_all
    next => cases h
  | timerFire =>
    simp only [step] at h
    (repeat' split at h) <;> (try cases h) <;> simp_all
  | selectDone =>
    simp only [step] at h
    (repeat' split at h) <;> (try cases h) <;> simp_all
  | send =>
    simp only [step] at h
    (repeat' split at h) <;> (try cases h) <;> simp_all
  | closeCh =>
    simp only [step] at h
    (repeat' split at h) <;> (try cases h) <;> simp_all
  | stopBegin =>
    simp only [step] at h
    (repeat' split at h) <;> (try cases h) <;> simp_all
  | drainRecv i =>
    simp only [step] at h
    (repeat' split at h) <;> (try cases h) <;> simp_all
  | drainFin i =>
    simp only [step] at h
    (repeat' split at h) <;> (try cases h) <;> simp_all

/-- Preservation of the invariant by every successful step. -/
theorem inv_step {s s2 : PW} {a : Act} (hI : Inv s) (h : step s a = Outcome.ok s2) :
    Inv s2 := by
  obtain ⟨h1, h2, h3, h4, h5, h6, h7, h8, h9, h10, h11, h12⟩ := hI
  cases a with
  | timerFire =>
    simp only [step] at h
    split at h
    case isTrue hpc =>
      cases h
      refine ⟨h1, ?_, h3, h4, h5, ?_, ?_, h8, h9, h10, h11, h12⟩ <;> simp_all
    case isFalse => cases h
  | selectDone =>
    simp only [step] at h
    split at h
    case isTrue hpc =>
      split at h
      case isTrue hdone =>
        cases h
        refine ⟨h1, ?_, h3, h4, h5, ?_, ?_, h8, h9, h10, h11, h12⟩ <;> simp_all
      case isFalse => cases h
    case isFalse => cases h
  | send =>
    simp only [step] at h
    split at h
    case isTrue hpc =>
      split at h
      case isTrue => cases h
      case isFalse hncl =>
        split at h
        case isTrue hlen =>
          cases h
          have hempty : s.sent = [] := h6 (Or.inr hpc)
          have hbuf : s.ch.buf = [] := by
            rw [hempty] at h5
            exact List.length_eq_zero.mp (Nat.le_zero.mp h5)
          refine ⟨h1, ?_, h3, ?_, ?_, ?_, ?_, h8, h9, ?_, ?_, ?_⟩
          · simp_all
          · simp [hempty]
          · simp [hempty, hbuf]
          · simp
          · simp_all
          · intro pc hm hdr; exact h10 pc hm hdr
          · intro pc hm hr
            exact absurd (h2.mp (h11 pc hm hr)) (by simp [hpc])
          · intro pc hm hr
            exact absurd (h2.mp (h11 pc hm hr)) (by simp [hpc])
        case isFalse => cases h
    case isFalse => cases h
  | runStopCall =>
    simp only [step] at h
    split at h
    case isTrue hpc =>
      split at h
      next => cases h
      next s2x heq =>
        cases h
        rcases stopBody_some heq with ⟨hcl, rfl⟩ | ⟨hcl, hnd, rfl⟩
        · refine ⟨h1, ?_, h3, h4, h5, ?_, ?_, h8, h9, h10, h11, h12⟩ <;> simp_all
        · refine ⟨rfl, ?_, h3, h4, h5, ?_, ?_, ?_, h9, ?_, h11, h12⟩ <;> simp_all
    case isFalse => cases h
  | closeCh =>
    simp only [step] at h
    split at h
    case isTrue hpc =>
      split at h
      case isTrue => cases h
      case isFalse hncl =>
        cases h
        have hcl : s.closed = true := h7 (Or.inl hpc)
        refine ⟨h1, ?_, h3, h4, h5, ?_, ?_, h8, ?_, ?_, ?_, h12⟩ <;> simp_all
    case isFalse => cases h
  | stopBegin =>
    simp only [step] at h
    cases h
    refine ⟨h1, h2, h3, h4, h5, h6, h7, h8, h9, ?_, ?_, ?_⟩
    · intro pc hm hdr
      rcases List.mem_append.mp hm with hmem | hmem
      · exact h10 pc hmem hdr
      · simp at hmem; simp [hmem] at hdr
    · intro pc hm hr
      rcases List.mem_append.mp hm with hmem | hmem
      · exact h11 pc hmem hr
      · simp at hmem; simp [hmem] at hr
    · intro pc hm hr
      rcases List.mem_append.mp hm with hmem | hmem
      · exact h12 pc hmem hr
      · simp at hmem; simp [hmem] at hr
  | stopInner i =>
    simp only [step] at h
    split at h
    next heq0 =>
      split at h
      next => cases h
      next s2x heq =>
        cases h
        rcases stopBody_some heq with ⟨hcl, rfl⟩ | ⟨hcl, hnd, rfl⟩
        · refine ⟨h1, h2, h3, h4, h5, h6, h7, h8, h9, ?_, ?_, ?_⟩
          · intro pc hm _
            exact hcl
          · intro pc hm hr
            rcases List.mem_or_eq_of_mem_set hm with hmem | hval
            · exact h11 pc hmem hr
            · simp [hval] at hr
          · intro pc hm hr
            rcases List.mem_or_eq_of_mem_set hm with hmem | hval
            · exact h12 pc hmem hr
            · simp [hval] at hr
        · refine ⟨rfl, h2, h3, h4, h5, h6, ?_, ?_, h9, ?_, ?_, ?_⟩
          · intro hor
            exact absurd (h7 hor) (by simp [hcl])
          · simp_all
          · intro pc hm _
            rfl
          · intro pc hm hr
            rcases List.mem_or_eq_of_mem_set hm with hmem | hval
            · exact h11 pc hmem hr
            · simp [hval] at hr
          · intro pc hm hr
            rcases List.mem_or_eq_of_mem_set hm with hmem | hval
            · exact h12 pc hmem hr
            · simp [hval] at hr
    next => cases h
  | drainRecv i =>
    simp only [step] at h
    split at h
    case _ heq =>
      split at h
      case _ => cases h
      case _ x rest hbuf =>
        cases h
        refine ⟨h1, h2, h3, h4, ?_, h6, h7, h8, h9, h10, h11, ?_⟩
        · simp only []
          have := h5
          rw [hbuf] at this
          simp at this
          omega
        · intro pc hm hr
          exact absurd (h12 pc hm hr) (by simp [hbuf])
    case _ => cases h
  | drainFin i =>
    simp only [step] at h
    split at h
    case _ heq =>
      split at h
      case isTrue hbuf =>
        split at h
        case isTrue hcl =>
          cases h
          have hidx : StopPC.draining ∈ s.stoppers := List.get?_mem heq
          refine ⟨h1, h2, h3, h4, h5, h6, h7, h8, h9, ?_, ?_, ?_⟩
          · intro pc hm _
            exact h10 StopPC.draining hidx (Or.inl rfl)
          · intro pc hm _
            exact hcl
          · intro pc hm _
            exact hbuf
        case isFalse => cases h
      case isFalse => cases h
    case _ => cases h

/-- Inside the guarded stop, the close of the done channel can never be
reached with the channel already closed: the flag and the channel agree
by the invariant, and the close is only attempted with the flag clear. -/
theorem stopBody_ne_none {s : PW} (hI : Inv s) (h : stopBody s = none) : False := by
  unfold stopBody at h
  split at h
  case isTrue => cases h
  case isFalse hncl =>
    split at h
    case isTrue hd => exact hncl (hI.flagsEq.trans hd)
    case isFalse => cases h

/-- No single action can panic from an invariant state: the guarded
flag protects `close(done)`, only the exiting `run` goroutine closes
`ch`, and nothing sends on `ch` after it is closed. -/
theorem step_ne_panic {s : PW} (hI : Inv s) (a : Act) : step s a ≠ Outcome.panicked := by
  intro hpan
  cases a with
  | timerFire =>
    simp only [step] at hpan
    split at hpan <;> cases hpan
  | selectDone =>
    simp only [step] at hpan
    (repeat' split at hpan) <;> cases hpan
  | send =>
    simp only [step] at hpan
    split at hpan
    case isTrue hpc =>
      split at hpan
      case isTrue hcl =>
        exact absurd (hI.chClosedIffExited.mp hcl) (by simp [hpc])
      case isFalse =>
        split at hpan <;> cases hpan
    case isFalse => cases hpan
  | runStopCall =>
    simp only [step] at hpan
    split at hpan
    case isTrue hpc =>
      split at hpan
      next heq => exact stopBody_ne_none hI heq
      next => cases hpan
    case isFalse => cases hpan
  | closeCh =>
    simp only [step] at hpan
    split at hpan
    case isTrue hpc =>
      split at hpan
      case isTrue hcl =>
        exact absurd (hI.chClosedIffExited.mp hcl) (by simp [hpc])
      case isFalse => cases hpan
    case isFalse => cases hpan
  | stopBegin =>
    simp only [step] at hpan
    cases hpan
  | stopInner i =>
    simp only [step] at hpan
    split at hpan
    next heq0 =>
      split at hpan
      next heq => exact stopBody_ne_none hI heq
      next => cases hpan
    next => cases hpan
  | drainRecv i =>
    simp only [step] at hpan
    (repeat' split at hpan) <;> cases hpan
  | drainFin i =>
    simp only [step] at hpan
    (repeat' split at hpan) <;> cases hpan

/-- Executing a concatenation runs the first part, then (on success)
the second. -/
theorem exec_append (s : PW) (l1 l2 : List Act) :
    exec s (l1 ++ l2) =
      match exec s l1 with
      | Outcome.ok s2 => exec s2 l2
      | Outcome.blocked => Outcome.blocked
      | Outcome.panicked => Outcome.panicked := by
  induction l1 generalizing s with
  | nil => simp [exec]
  | cons a rest ih =>
    simp only [List.cons_append, exec]
    cases step s a <;> simp [ih]

/-- The invariant holds along every successful execution. -/
theorem inv_exec {s s2 : PW} {acts : List Act} (hI : Inv s)
    (h : exec s acts = Outcome.ok s2) : Inv s2 := by
  induction acts generalizing s with
  | nil =>
    simp only [exec] at h
    cases h
    exact hI
  | cons a rest ih =>
    simp only [exec] at h
    cases hstep : step s a with
    | ok s1 =>
      rw [hstep] at h
      exact ih (inv_step hI hstep) h
    | blocked => rw [hstep] at h; cases h
    | panicked => rw [hstep] at h; cases h

/-- No execution from an invariant state ever panics. -/
theorem exec_ne_panic {s : PW} (hI : Inv s) (acts : List Act) :
    exec s acts ≠ Outcome.panicked := by
  induction acts generalizing s with
  | nil => simp [exec]
  | cons a rest ih =>
    simp only [exec]
    cases hstep : step s a with
    | ok s1 => exact ih (inv_step hI hstep)
    | blocked => simp
    | panicked => exact absurd hstep (step_ne_panic hI a)

/-- `step_facts`, folded over a whole successful execution. -/
theorem exec_facts {s s2 : PW} {acts : List Act} (h : exec s acts = Outcome.ok s2) :
    s2.interval = s.interval ∧ s2.rv = s.rv ∧ s2.lw = s.lw ∧ s2.ch.cap = s.ch.cap ∧
    (s.doneClosed = true → s2.doneClosed = true) ∧
    (s.ch.closed = true → s2.ch.closed = true) ∧
    (s.closed = true → s2.closed = true) ∧
    (s.runPC = RunPC.exited → s2.runPC = RunPC.exited ∧ s2.sent = s.sent) := by
  induction acts generalizing s with
  | nil =>
    simp only [exec] at h
    cases h
    exact ⟨rfl, rfl, rfl, rfl, id, id, id, fun hx => ⟨hx, rfl⟩⟩
  | cons a rest ih =>
    simp only [exec] at h
    cases hstep : step s a with
    | ok s1 =>
      rw [hstep] at h
      obtain ⟨f1, f2, f3, f4, f5, f6, f7, f8⟩ := step_facts hstep
      obtain ⟨g1, g2, g3, g4, g5, g6, g7, g8⟩ := ih h
      refine ⟨g1.trans f1, g2.trans f2, g3.trans f3, g4.trans f4,
        fun hx => g5 (f5 hx), fun hx => g6 (f6 hx), fun hx => g7 (f7 hx), fun hx => ?_⟩
      obtain ⟨hx1, hx2⟩ := f8 hx
      obtain ⟨hy1, hy2⟩ := g8 hx1
      exact ⟨hy1, hy2.trans hx2⟩
    | blocked => rw [hstep] at h; cases h
    | panicked => rw [hstep] at h; cases h

/-! ## Liveness: the `run` goroutine can always finish, and afterwards
every `Stop()` caller can always drain and return. -/

/-- A schedule completing the `run` goroutine from any point. -/
def runFinishActs (s : PW) : List Act :=
  match s.runPC with
  | RunPC.selecting =>
    if s.doneClosed then [Act.selectDone, Act.closeCh]
    else [Act.timerFire, Act.send, Act.runStopCall, Act.closeCh]
  | RunPC.sending => [Act.send, Act.runStopCall, Act.closeCh]
  | RunPC.stopping => [Act.runStopCall, Act.closeCh]
  | RunPC.closing => [Act.closeCh]
  | RunPC.exited => []

/-- From any invariant state the `run` goroutine runs to completion
without blocking, closing the channel on the way out and leaving the
stoppers untouched. -/
theorem run_finish {s : PW} (hI : Inv s) :
    ∃ s2, exec s (runFinishActs s) = Outcome.ok s2 ∧ s2.runPC = RunPC.exited ∧
      s2.stoppers = s.stoppers := by
  have hb1 : s.ch.buf.length ≤ 1 := by
    have hb := hI.bufLen
    rcases hI.sentForm with hs | hs <;> rw [hs] at hb
    · exact hb.trans (by simp)
    · simpa using hb
  have hlen : s.ch.buf.length < s.ch.cap := by
    rw [hI.cap100]; omega
  cases hpc : s.runPC with
  | selecting =>
    have hcl : s.ch.closed = false := by
      cases hcc : s.ch.closed
      · rfl
      · exact absurd (hI.chClosedIffExited.mp hcc) (by simp [hpc])
    cases hd : s.doneClosed with
    | true =>
      refine ⟨{ s with
                runPC := RunPC.exited,
                ch := { s.ch with closed := true },
                chCloseCount := s.chCloseCount + 1 }, ?_, rfl, rfl⟩
      simp [runFinishActs, hpc, hd, exec, step, hcl]
    | false =>
      have hc : s.closed = false := hI.flagsEq.trans hd
      refine ⟨{ s with
                runPC := RunPC.exited,
                ch := { s.ch with buf := s.ch.buf ++ [expiryEvent s.interval], closed := true },
                sent := s.sent ++ [expiryEvent s.interval],
                doneClosed := true,
                closed := true,
                doneCloseCount := s.doneCloseCount + 1,
                chCloseCount := s.chCloseCount + 1 }, ?_, rfl, rfl⟩
      simp [runFinishActs, hpc, hd, exec, step, hcl, stopBody, hc, hlen]
  | sending =>
    have hcl : s.ch.closed = false := by
      cases hcc : s.ch.closed
      · rfl
      · exact absurd (hI.chClosedIffExited.mp hcc) (by simp [hpc])
    cases hc : s.closed with
    | true =>
      refine ⟨{ s with
                runPC := RunPC.exited,
                ch := { s.ch with buf := s.ch.buf ++ [expiryEvent s.interval], closed := true },
                sent := s.sent ++ [expiryEvent s.interval],
                chCloseCount := s.chCloseCount + 1 }, ?_, rfl, rfl⟩
      simp [runFinishActs, hpc, exec, step, hcl, stopBody, hc, hlen]
    | false =>
      have hd2 : s.doneClosed = false := hI.flagsEq.symm.trans hc
      refine ⟨{ s with
                runPC := RunPC.exited,
                ch := { s.ch with buf := s.ch.buf ++ [expiryEvent s.interval], closed := true },
                sent := s.sent ++ [expiryEvent s.interval],
                doneClosed := true,
                closed := true,
                doneCloseCount := s.doneCloseCount + 1,
                chCloseCount := s.chCloseCount + 1 }, ?_, rfl, rfl⟩
      simp [runFinishActs, hpc, exec, step, hcl, stopBody, hc, hd2, hlen]
  | stopping =>
    have hcl : s.ch.closed = false := by
      cases hcc : s.ch.closed
      · rfl
      · exact absurd (hI.chClosedIffExited.mp hcc) (by simp [hpc])
    cases hc : s.closed with
    | true =>
      refine ⟨{ s with
                runPC := RunPC.exited,
                ch := { s.ch with closed := true },
                chCloseCount := s.chCloseCount + 1 }, ?_, rfl, rfl⟩
      simp [runFinishActs, hpc, exec, step, hcl, stopBody, hc]
    | false =>
      have hd2 : s.doneClosed = false := hI.flagsEq.symm.trans hc
      refine ⟨{ s with
                runPC := RunPC.exited,
                ch := { s.ch with closed := true },
                doneClosed := true,
                closed := true,
                doneCloseCount := s.doneCloseCount + 1,
                chCloseCount := s.chCloseCount + 1 }, ?_, rfl, rfl⟩
      simp [runFinishActs, hpc, exec, step, hcl, stopBody, hc, hd2]
  | closing =>
    have hcl : s.ch.closed = false := by
      cases hcc : s.ch.closed
      · rfl
      · exact absurd (hI.chClosedIffExited.mp hcc) (by simp [hpc])
    refine ⟨{ s with
              runPC := RunPC.exited,
              ch := { s.ch with closed := true },
              chCloseCount := s.chCloseCount + 1 }, ?_, rfl, rfl⟩
    simp [runFinishActs, hpc, exec, step, hcl]
  | exited =>
    exact ⟨s, by simp [runFinishActs, hpc, exec], hpc, rfl⟩

/-- A schedule completing one `Stop()` caller once `run` has exited:
run the guarded stop if the caller has not yet, drain whatever sits in
the buffer, observe the close. -/
def stopperFinishActs (s : PW) (i : Nat) : List Act :=
  (match s.stoppers.get? i with
   | some StopPC.entered => [Act.stopInner i]
   | _ => []) ++
  (s.ch.buf.map (fun _ => Act.drainRecv i)) ++ [Act.drainFin i]

/-- Once `run` has exited, any stopper that has not yet returned can
run to completion, ending returned with everything else as before. -/
theorem stopper_finish {s : PW} (hI : Inv s) (hex : s.runPC = RunPC.exited)
    {i : Nat} {pc : StopPC} (hget : s.stoppers.get? i = some pc)
    (hnr : pc ≠ StopPC.returned) :
    ∃ s2, exec s (stopperFinishActs s i) = Outcome.ok s2 ∧
      s2.stoppers = s.stoppers.set i StopPC.returned ∧ s2.runPC = RunPC.exited := by
  have hcl : s.ch.closed = true := hI.chClosedIffExited.mpr hex
  have hc : s.closed = true := hI.closedLate (Or.inr hex)
  have hb1 : s.ch.buf.length ≤ 1 := by
    have hb := hI.bufLen
    rcases hI.sentForm with hs | hs <;> rw [hs] at hb
    · exact hb.trans (by simp)
    · simpa using hb
  have hgetE : s.stoppers[i]? = some pc := by
    rw [← List.get?_eq_getElem?]
    exact hget
  have hsetE : (s.stoppers.set i StopPC.draining)[i]? = some StopPC.draining := by
    rw [← List.get?_eq_getElem?, List.get?_set_eq, hget]
    rfl
  rcases hbuf : s.ch.buf with _ | ⟨x, tl⟩
  · cases pc with
    | returned => exact absurd rfl hnr
    | draining =>
      refine ⟨{ s with stoppers := s.stoppers.set i StopPC.returned }, ?_, rfl, hex⟩
      simp [stopperFinishActs, hgetE, hbuf, exec, step, hcl]
    | entered =>
      refine ⟨{ s with
                stoppers := (s.stoppers.set i StopPC.draining).set i StopPC.returned },
        ?_, by simp [List.set_set], hex⟩
      simp [stopperFinishActs, hgetE, hbuf, exec, step, stopBody, hc, hcl, hsetE]
  · have htl : tl = [] := by
      rw [hbuf] at hb1
      simp at hb1
      exact hb1
    subst htl
    cases pc with
    | returned => exact absurd rfl hnr
    | draining =>
      refine ⟨{ s with
                ch := { s.ch with buf := [] },
                stoppers := s.stoppers.set i StopPC.returned }, ?_, rfl, hex⟩
      simp [stopperFinishActs, hgetE, hbuf, exec, step, hcl]
    | entered =>
      refine ⟨{ s with
                ch := { s.ch with buf := [] },
                stoppers := (s.stoppers.set i StopPC.draining).set i StopPC.returned },
        ?_, by simp [List.set_set], hex⟩
      simp [stopperFinishActs, hgetE, hbuf, exec, step, stopBody, hc, hcl, hsetE]

/-- Setting a non-returned stopper to returned strictly decreases the
number of non-returned stoppers. -/
theorem filter_set_decreases {l : List StopPC} {i : Nat} {pc : StopPC}
    (hget : l.get? i = some pc) (hnr : pc ≠ StopPC.returned) :
    ((l.set i StopPC.returned).filter (fun q => !decide (q = StopPC.returned))).length <
      (l.filter (fun q => !decide (q = StopPC.returned))).length := by
  induction l generalizing i pc with
  | nil => cases hget
  | cons x xs ih =>
    cases i with
    | zero =>
      simp only [List.get?] at hget
      cases hget
      simp only [List.set, List.filter_cons]
      simp [hnr]
    | succ j =>
      simp only [List.get?] at hget
      have hx := ih hget hnr
      simp only [List.set, List.filter_cons]
      by_cases hdx : x = StopPC.returned
      · simp [hdx]
        exact hx
      · simp [hdx]
        omega

/-- Once `run` has exited, there is a schedule after which every
stopper so far has returned (new stoppers may of course still arrive
later; the statement is about those present). -/
theorem all_finish (n : Nat) : ∀ s : PW, Inv s → s.runPC = RunPC.exited →
    (s.stoppers.filter (fun q => !decide (q = StopPC.returned))).length = n →
    ∃ more s2, exec s more = Outcome.ok s2 ∧ s2.runPC = RunPC.exited ∧
      ∀ pc ∈ s2.stoppers, pc = StopPC.returned := by
  induction n using Nat.strong_induction_on with
  | _ n ih =>
    intro s hI hex hcount
    by_cases hall : ∀ pc ∈ s.stoppers, pc = StopPC.returned
    · exact ⟨[], s, rfl, hex, hall⟩
    · push_neg at hall
      obtain ⟨pc, hmem, hnr⟩ := hall
      obtain ⟨i, hgeti⟩ : ∃ i, s.stoppers.get? i = some pc := by
        obtain ⟨n0, hn0⟩ := List.mem_iff_get.mp hmem
        exact ⟨n0.1, by rw [List.get?_eq_get n0.2]; exact congrArg some hn0⟩
      obtain ⟨s2, hex2, hst2, hpc2⟩ := stopper_finish hI hex hgeti hnr
      have hI2 := inv_exec hI hex2
      have hlt : (s2.stoppers.filter (fun q => !decide (q = StopPC.returned))).length < n := by
        rw [hst2, ← hcount]
        exact filter_set_decreases hgeti hnr
      obtain ⟨more, s3, hex3, hpc3, hall3⟩ := ih _ hlt s2 hI2 hpc2 rfl
      refine ⟨stopperFinishActs s i ++ more, s3, ?_, hpc3, hall3⟩
      rw [exec_append, hex2]
      exact hex3

/-! ## Executions without a `Stop()` call, and executions in which the
interval has not yet elapsed. -/

/-- Invariant of executions in which the owner never invokes `Stop()`:
there are no stoppers, the done channel stays open until the timer
branch itself closes it, and the expiry event is sent exactly when the
`run` goroutine is past its send. -/
def NInv (s : PW) : Prop :=
  s.stoppers = [] ∧
  ((s.runPC = RunPC.selecting ∨ s.runPC = RunPC.sending) →
    s.doneClosed = false ∧ s.sent = []) ∧
  ((s.runPC = RunPC.stopping ∨ s.runPC = RunPC.closing ∨ s.runPC = RunPC.exited) →
    s.sent = [expiryEvent s.interval])

theorem ninv_init (lw : ListWatcher) (interval : Nat) (rv : GoTime) :
    NInv (newPeriodicWatcher lw interval rv) := by
  refine ⟨rfl, fun _ => ⟨rfl, rfl⟩, fun hor => ?_⟩
  simp [newPeriodicWatcher] at hor

theorem ninv_step {s s2 : PW} {a : Act} (hN : NInv s) (hna : a ≠ Act.stopBegin)
    (h : step s a = Outcome.ok s2) : NInv s2 := by
  obtain ⟨n1, n2, n3⟩ := hN
  cases a with
  | timerFire =>
    simp only [step] at h
    split at h
    case isTrue hpc =>
      cases h
      exact ⟨n1, fun _ => n2 (Or.inl hpc), fun hor => by simp at hor⟩
    case isFalse => cases h
  | selectDone =>
    simp only [step] at h
    split at h
    case isTrue hpc =>
      split at h
      case isTrue hd => exact absurd hd (by simp [(n2 (Or.inl hpc)).1])
      case isFalse => cases h
    case isFalse => cases h
  | send =>
    simp only [step] at h
    split at h
    case isTrue hpc =>
      split at h
      case isTrue => cases h
      case isFalse =>
        split at h
        case isTrue =>
          cases h
          refine ⟨n1, fun hor => by simp at hor, fun _ => ?_⟩
          simp [(n2 (Or.inr hpc)).2]
        case isFalse => cases h
    case isFalse => cases h
  | runStopCall =>
    simp only [step] at h
    split at h
    case isTrue hpc =>
      split at h
      next => cases h
      next s2x heq =>
        cases h
        rcases stopBody_some heq with ⟨hcl, rfl⟩ | ⟨hcl, hnd, rfl⟩ <;>
          exact ⟨n1, fun hor => by simp at hor, fun _ => n3 (Or.inl hpc)⟩
    case isFalse => cases h
  | closeCh =>
    simp only [step] at h
    split at h
    case isTrue hpc =>
      split at h
      case isTrue => cases h
      case isFalse =>
        cases h
        exact ⟨n1, fun hor => by simp at hor, fun _ => n3 (Or.inr (Or.inl hpc))⟩
    case isFalse => cases h
  | stopBegin => exact absurd rfl hna
  | stopInner i =>
    simp only [step, n1] at h
    cases h
  | drainRecv i =>
    simp only [step, n1] at h
    cases h
  | drainFin i =>
    simp only [step, n1] at h
    cases h

theorem ninv_exec {s s2 : PW} {acts : List Act} (hN : NInv s)
    (hnm : Act.stopBegin ∉ acts) (h : exec s acts = Outcome.ok s2) : NInv s2 := by
  induction acts generalizing s with
  | nil =>
    simp only [exec] at h
    cases h
    exact hN
  | cons a rest ih =>
    have ha : a ≠ Act.stopBegin := fun he => hnm (he ▸ List.mem_cons_self a rest)
    have hrest : Act.stopBegin ∉ rest := fun hm => hnm (List.mem_cons_of_mem a hm)
    simp only [exec] at h
    cases hstep : step s a with
    | ok s1 =>
      rw [hstep] at h
      exact ih (ninv_step hN ha hstep) hrest h
    | blocked => rw [hstep] at h; cases h
    | panicked => rw [hstep] at h; cases h

/-- Invariant of executions in which the interval timer has not fired:
nothing has been sent, the buffer is empty, and the `run` goroutine is
still at its select or already on the eventless stop path. -/
def TInv (s : PW) : Prop :=
  s.sent = [] ∧ s.ch.buf = [] ∧
  (s.runPC = RunPC.selecting ∨ s.runPC = RunPC.closing ∨ s.runPC = RunPC.exited)

theorem tinv_init (lw : ListWatcher) (interval : Nat) (rv : GoTime) :
    TInv (newPeriodicWatcher lw interval rv) :=
  ⟨rfl, rfl, Or.inl rfl⟩

theorem tinv_step {s s2 : PW} {a : Act} (hT : TInv s) (hna : a ≠ Act.timerFire)
    (h : step s a = Outcome.ok s2) : TInv s2 := by
  obtain ⟨t1, t2, t3⟩ := hT
  cases a with
  | timerFire => exact absurd rfl hna
  | selectDone =>
    simp only [step] at h
    (repeat' split at h) <;> (try cases h) <;> exact ⟨t1, t2, Or.inr (Or.inl rfl)⟩
  | send =>
    simp only [step] at h
    split at h
    case isTrue hpc => rcases t3 with h3 | h3 | h3 <;> simp [h3] at hpc
    case isFalse => cases h
  | runStopCall =>
    simp only [step] at h
    split at h
    case isTrue hpc => rcases t3 with h3 | h3 | h3 <;> simp [h3] at hpc
    case isFalse => cases h
  | closeCh =>
    simp only [step] at h
    (repeat' split at h) <;> (try cases h) <;> exact ⟨t1, t2, Or.inr (Or.inr rfl)⟩
  | stopBegin =>
    simp only [step] at h
    cases h
    exact ⟨t1, t2, t3⟩
  | stopInner i =>
    simp only [step] at h
    split at h
    next heq =>
      split at h
      next => cases h
      next s2x heqB =>
        cases h
        rcases stopBody_some heqB with ⟨hcl, rfl⟩ | ⟨hcl, hnd, rfl⟩ <;>
          exact ⟨t1, t2, t3⟩
    next => cases h
  | drainRecv i =>
    simp only [step, t2] at h
    (repeat' split at h) <;> cases h
  | drainFin i =>
    simp only [step] at h
    (repeat' split at h) <;> (try cases h) <;> exact ⟨t1, t2, t3⟩

theorem tinv_exec {s s2 : PW} {acts : List Act} (hT : TInv s)
    (hnm : Act.timerFire ∉ acts) (h : exec s acts = Outcome.ok s2) : TInv s2 := by
  induction acts generalizing s with
  | nil =>
    simp only [exec] at h
    cases h
    exact hT
  | cons a rest ih =>
    have ha : a ≠ Act.timerFire := fun he => hnm (he ▸ List.mem_cons_self a rest)
    have hrest : Act.timerFire ∉ rest := fun hm => hnm (List.mem_cons_of_mem a hm)
    simp only [exec] at h
    cases hstep : step s a with
    | ok s1 =>
      rw [hstep] at h
      exact ih (tinv_step hT ha hstep) hrest h
    | blocked => rw [hstep] at h; cases h
    | panicked => rw [hstep] at h; cases h

/-- After any successful `stopInner` step the done channel is closed. -/
theorem stopInner_done {s s2 : PW} {i : Nat} (hI : Inv s)
    (h : step s (Act.stopInner i) = Outcome.ok s2) : s2.doneClosed = true := by
  simp only [step] at h
  split at h
  next heq =>
    split at h
    next => cases h
    next s2x heqB =>
      cases h
      rcases stopBody_some heqB with ⟨hcl, rfl⟩ | ⟨hcl, hnd, rfl⟩
      · simpa using hI.flagsEq.symm.trans hcl
      · simp
  next => cases h

/-- If some `stopInner` action occurs in a successful execution, the
done channel is closed in the final state. -/
theorem doneClosed_after_stopInner {i : Nat} {acts : List Act} :
    ∀ {s s2 : PW}, Inv s → exec s acts = Outcome.ok s2 → Act.stopInner i ∈ acts →
      s2.doneClosed = true := by
  induction acts with
  | nil =>
    intro s s2 _ _ hmem
    cases hmem
  | cons a rest ih =>
    intro s s2 hI h hmem
    simp only [exec] at h
    cases hstep : step s a with
    | ok s1 =>
      rw [hstep] at h
      rcases List.mem_cons.mp hmem with heq | htail
      · cases heq
        have hd1 := stopInner_done hI hstep
        exact (exec_facts h).2.2.2.2.1 hd1
      · exact ih (inv_step hI hstep) h htail
    | blocked => rw [hstep] at h; cases h
    | panicked => rw [hstep] at h; cases h

/-! ## Helper lemmas about `cacheListAll`. -/

/-- When the accessor succeeds on every stored item, `cacheListAll`
returns exactly the records matching the selector, and no error. -/
theorem cacheListAll_ok (store : List Job) (selector : Selector)
    (accessor : Job → Except KError (List (String × String)))
    (htotal : ∀ j ∈ store, accessor j = Except.ok j.labelSet) :
    cacheListAll store selector accessor =
      (store.filter (fun j => selector.matchesLabels j.labelSet), none) := by
  induction store with
  | nil => rfl
  | cons j rest ih =>
    have hj := htotal j (List.mem_cons_self j rest)
    have hrest : ∀ x ∈ rest, accessor x = Except.ok x.labelSet :=
      fun x hx => htotal x (List.mem_cons_of_mem j hx)
    by_cases hm : selector.matchesLabels j.labelSet = true <;>
      simp [cacheListAll, hj, ih hrest, List.filter_cons, hm]

/-- An error out of `cacheListAll` always originates from the accessor
failing on some stored item. -/
theorem cacheListAll_error (store : List Job) (selector : Selector)
    (accessor : Job → Except KError (List (String × String))) :
    ∀ e, (cacheListAll store selector accessor).2 = some e →
      ∃ j ∈ store, accessor j = Except.error e := by
  induction store with
  | nil =>
    intro e h
    simp [cacheListAll] at h
  | cons j rest ih =>
    intro e h
    simp only [cacheListAll] at h
    cases hacc : accessor j with
    | error e2 =>
      rw [hacc] at h
      simp at h
      exact ⟨j, List.mem_cons_self j rest, by rw [hacc, h]⟩
    | ok lbls =>
      rw [hacc] at h
      simp at h
      obtain ⟨x, hx, hxe⟩ := ih e h
      exact ⟨x, List.mem_cons_of_mem j hx, hxe⟩

/-! ## Claim theorems. -/

/-- C6: for every call to `ListWatcher.List`, the supplied options are
ignored, exactly one fetch-all call goes through the remote job client,
and the result is the full fetched collection or the fetch error,
propagated unchanged. -/
theorem list_single_fetch_propagates_unchanged (lw : ListWatcher) (options : ListOptions) :
    (lw.ListSnapshot options).1 = lw.fetchAll ∧
    (lw.ListSnapshot options).2 = 1 ∧
    ∀ options2 : ListOptions, lw.ListSnapshot options = lw.ListSnapshot options2 := by
  unfold ListWatcher.ListSnapshot
  cases lw.fetchAll <;> simp

/-- C7: `Lister.Get` returns the exact cached record when the key is
present, a typed not-found error carrying the fixed group/resource and
the requested identity when absent, the indexer's own error unchanged
when the lookup errors, and in every case leaves the cache unchanged. -/
theorem lister_get_cases (indexer : Indexer) (id : String) :
    ((NewLister indexer).Get id).2 = NewLister indexer ∧
    (∀ e, indexer.getByKey id = Except.error e →
      ((NewLister indexer).Get id).1 = Except.error e) ∧
    (indexer.getByKey id = Except.ok none →
      ((NewLister indexer).Get id).1 =
        Except.error (KError.statusNotFound ⟨"search.openshift.io", "prow"⟩ id) ∧
      (KError.statusNotFound ⟨"search.openshift.io", "prow"⟩ id).isNotFound = true) ∧
    (∀ job, indexer.getByKey id = Except.ok (some job) →
      ((NewLister indexer).Get id).1 = Except.ok job) := by
  refine ⟨rfl, ?_, ?_, ?_⟩
  · intro e he
    simp [Lister.Get, NewLister, he]
  · intro he
    exact ⟨by simp [Lister.Get, NewLister, he], rfl⟩
  · intro job hj
    simp [Lister.Get, NewLister, hj]

/-- C8: `Lister.List` returns exactly the cached records matching the
selector with no error whenever the indexer enumeration succeeds (in
particular an empty match set gives an empty result, not an error), and
errors only when the enumeration itself fails. -/
theorem lister_list_selector (indexer : Indexer) (selector : Selector) :
    ((∀ j ∈ indexer.storeList, indexer.accessorLabels j = Except.ok j.labelSet) →
      ((NewLister indexer).ListJobs selector).1 =
        indexer.storeList.filter (fun j => selector.matchesLabels j.labelSet) ∧
      ((NewLister indexer).ListJobs selector).2 = none ∧
      ((∀ j ∈ indexer.storeList, selector.matchesLabels j.labelSet = false) →
        ((NewLister indexer).ListJobs selector).1 = [])) ∧
    (∀ e, ((NewLister indexer).ListJobs selector).2 = some e →
      ∃ j ∈ indexer.storeList, indexer.accessorLabels j = Except.error e) := by
  constructor
  · intro htotal
    have hok := cacheListAll_ok indexer.storeList selector indexer.accessorLabels htotal
    have h1 : ((NewLister indexer).ListJobs selector).1 =
        indexer.storeList.filter (fun j => selector.matchesLabels j.labelSet) := by
      simp [Lister.ListJobs, NewLister, hok]
    refine ⟨h1, by simp [Lister.ListJobs, NewLister, hok], ?_⟩
    intro hnone
    rw [h1, List.filter_eq_nil]
    intro j hj
    simp [hnone j hj]
  · intro e he
    exact cacheListAll_error indexer.storeList selector indexer.accessorLabels e he

/-- C5: `ListWatcher.Watch` with a token that fails timestamp parsing
returns that error immediately — the error branch carries no watcher,
so no session exists and no background task was started — and with a
valid token returns a freshly constructed watcher whose background task
is running (sitting at its select), with nothing sent and no stoppers. -/
theorem watch_invalid_token_fails_fast (lw : ListWatcher) (options : ListOptions) :
    (∀ e, unmarshalQueryParameter options.resourceVersion = Except.error e →
      lw.Watch options = Except.error e) ∧
    (∀ rv, unmarshalQueryParameter options.resourceVersion = Except.ok rv →
      lw.Watch options = Except.ok (newPeriodicWatcher lw lw.interval rv) ∧
      (newPeriodicWatcher lw lw.interval rv).runPC = RunPC.selecting ∧
      (newPeriodicWatcher lw lw.interval rv).sent = [] ∧
      (newPeriodicWatcher lw lw.interval rv).stoppers = []) := by
  constructor
  · intro e he
    simp [ListWatcher.Watch, he]
  · intro rv hrv
    exact ⟨by simp [ListWatcher.Watch, hrv], rfl, rfl, rfl⟩

/-- C9: an empty resource-version token is accepted by `Watch` rather
than rejected as malformed: it decodes to the zero timestamp and a
session with its background task is created. -/
theorem watch_empty_token_accepted (lw : ListWatcher) (options : ListOptions)
    (h : options.resourceVersion = "") :
    unmarshalQueryParameter options.resourceVersion = Except.ok goZeroTime ∧
    lw.Watch options = Except.ok (newPeriodicWatcher lw lw.interval goZeroTime) ∧
    (newPeriodicWatcher lw lw.interval goZeroTime).runPC = RunPC.selecting := by
  have h1 : unmarshalQueryParameter options.resourceVersion = Except.ok goZeroTime := by
    rw [h]
    rfl
  exact ⟨h1, by simp [ListWatcher.Watch, h1], rfl⟩

/-- The run-completion schedule never invokes `Stop()`. -/
theorem stopBegin_not_mem_runFinish (s : PW) : Act.stopBegin ∉ runFinishActs s := by
  unfold runFinishActs
  cases s.runPC with
  | selecting => by_cases hd : s.doneClosed = true <;> simp [hd]
  | sending => simp
  | stopping => simp
  | closing => simp
  | exited => simp

/-- C1: in any execution of a session that is never stopped, once the
background task has completed (which a continuation can always bring
about after the timer fires) exactly the one expiry event — error
typed, resource-expired, message naming the elapsed interval — has been
sent on the channel, the channel is closed, and no continuation ever
sends anything further. -/
theorem pw_expiry_exactly_one_event (lw : ListWatcher) (interval : Nat) (rv : GoTime)
    (acts : List Act) (s : PW)
    (h : exec (newPeriodicWatcher lw interval rv) acts = Outcome.ok s)
    (hns : Act.stopBegin ∉ acts) :
    (s.runPC = RunPC.exited →
      s.sent = [expiryEvent interval] ∧ s.ch.closed = true ∧
      ∀ more s2, exec s more = Outcome.ok s2 → s2.sent = [expiryEvent interval]) ∧
    (∃ more s2, Act.stopBegin ∉ more ∧ exec s more = Outcome.ok s2 ∧
      s2.runPC = RunPC.exited ∧ s2.sent = [expiryEvent interval] ∧
      s2.ch.closed = true) := by
  have hI := inv_exec (inv_init lw interval rv) h
  have hN := ninv_exec (ninv_init lw interval rv) hns h
  have hint : s.interval = interval := (exec_facts h).1
  constructor
  · intro hex
    have hsent : s.sent = [expiryEvent interval] := by
      rw [← hint]
      exact hN.2.2 (Or.inr (Or.inr hex))
    refine ⟨hsent, hI.chClosedIffExited.mpr hex, ?_⟩
    intro more s2 h2
    have := ((exec_facts h2).2.2.2.2.2.2.2 hex).2
    rw [this, hsent]
  · obtain ⟨s2, hexec2, hpc2, hstop2⟩ := run_finish hI
    have hN2 := ninv_exec hN (stopBegin_not_mem_runFinish s) hexec2
    have hint2 : s2.interval = interval := (exec_facts hexec2).1.trans hint
    refine ⟨runFinishActs s, s2, stopBegin_not_mem_runFinish s, hexec2, hpc2, ?_, ?_⟩
    · rw [← hint2]
      exact hN2.2.2 (Or.inr (Or.inr hpc2))
    · exact (inv_exec hI hexec2).chClosedIffExited.mpr hpc2

/-- C2: no execution of a session panics, the done signal and the event
channel are each closed at most once however many `Stop()` calls race
the timer, and from any reachable state there is a schedule after which
the background task has exited and every `Stop()` call has returned. -/
theorem pw_stop_idempotent_no_panic (lw : ListWatcher) (interval : Nat) (rv : GoTime)
    (acts : List Act) :
    exec (newPeriodicWatcher lw interval rv) acts ≠ Outcome.panicked ∧
    ∀ s, exec (newPeriodicWatcher lw interval rv) acts = Outcome.ok s →
      s.doneCloseCount ≤ 1 ∧ s.chCloseCount ≤ 1 ∧
      ∃ more s2, exec s more = Outcome.ok s2 ∧ s2.runPC = RunPC.exited ∧
        (∀ pc ∈ s2.stoppers, pc = StopPC.returned) ∧
        s2.doneCloseCount ≤ 1 ∧ s2.chCloseCount ≤ 1 := by
  constructor
  · exact exec_ne_panic (inv_init lw interval rv) acts
  · intro s h
    have hI := inv_exec (inv_init lw interval rv) h
    have hd : s.doneCloseCount ≤ 1 := by
      rw [hI.doneCount]
      cases s.doneClosed <;> simp
    have hcc : s.chCloseCount ≤ 1 := by
      rw [hI.chCount]
      cases s.ch.closed <;> simp
    obtain ⟨s1, he1, hp1, hs1⟩ := run_finish hI
    have hI1 := inv_exec hI he1
    obtain ⟨more, s2, he2, hp2, hall2⟩ := all_finish _ s1 hI1 hp1 rfl
    have hI2 := inv_exec hI1 he2
    refine ⟨hd, hcc, runFinishActs s ++ more, s2, ?_, hp2, hall2, ?_, ?_⟩
    · rw [exec_append, he1]
      exact he2
    · rw [hI2.doneCount]
      cases s2.doneClosed <;> simp
    · rw [hI2.chCount]
      cases s2.ch.closed <;> simp

/-- C3: in any execution in which `Stop()` ran before the interval
elapsed (some stop executed, the timer never fired), nothing has been
sent on the channel, nothing is ever sent while the timer stays silent,
and a continuation closes the channel with still nothing sent. -/
theorem pw_stop_before_expiry_no_events (lw : ListWatcher) (interval : Nat) (rv : GoTime)
    (acts : List Act) (s : PW)
    (h : exec (newPeriodicWatcher lw interval rv) acts = Outcome.ok s)
    (hnt : Act.timerFire ∉ acts) (hstop : ∃ i, Act.stopInner i ∈ acts) :
    s.sent = [] ∧
    (∀ more s2, Act.timerFire ∉ more → exec s more = Outcome.ok s2 → s2.sent = []) ∧
    (∃ more s2, Act.timerFire ∉ more ∧ exec s more = Outcome.ok s2 ∧
      s2.ch.closed = true ∧ s2.sent = []) := by
  have hI := inv_exec (inv_init lw interval rv) h
  have hT := tinv_exec (tinv_init lw interval rv) hnt h
  obtain ⟨i, hi⟩ := hstop
  have hdone : s.doneClosed = true :=
    doneClosed_after_stopInner (inv_init lw interval rv) h hi
  refine ⟨hT.1, ?_, ?_⟩
  · intro more s2 hnt2 h2
    exact (tinv_exec hT hnt2 h2).1
  · rcases hT.2.2 with h3 | h3 | h3
    · have hclF : s.ch.closed = false := by
        cases hcc : s.ch.closed
        · rfl
        · exact absurd (hI.chClosedIffExited.mp hcc) (by simp [h3])
      refine ⟨[Act.selectDone, Act.closeCh],
        { s with
          runPC := RunPC.exited,
          ch := { s.ch with closed := true },
          chCloseCount := s.chCloseCount + 1 }, by decide, ?_, rfl, hT.1⟩
      simp [exec, step, h3, hdone, hclF]
    · have hclF : s.ch.closed = false := by
        cases hcc : s.ch.closed
        · rfl
        · exact absurd (hI.chClosedIffExited.mp hcc) (by simp [h3])
      refine ⟨[Act.closeCh],
        { s with
          runPC := RunPC.exited,
          ch := { s.ch with closed := true },
          chCloseCount := s.chCloseCount + 1 }, by decide, ?_, rfl, hT.1⟩
      simp [exec, step, h3, hclF]
    · exact ⟨[], s, by decide, rfl, hI.chClosedIffExited.mpr h3, hT.1⟩

/-- C4: a `Stop()` call only returns after the guarded stop has run and
it has observed the channel closed with the buffer drained — at which
point the background task has already exited, so no send can still be
pending — and the background task's one send is never blocked by an
unread buffer. -/
theorem pw_stop_drains_until_closed (lw : ListWatcher) (interval : Nat) (rv : GoTime)
    (acts : List Act) (s : PW)
    (h : exec (newPeriodicWatcher lw interval rv) acts = Outcome.ok s) :
    (∀ i, s.stoppers.get? i = some StopPC.returned →
      s.ch.closed = true ∧ s.runPC = RunPC.exited ∧ s.ch.buf = []) ∧
    (∀ i, (s.stoppers.get? i = some StopPC.draining ∨
        s.stoppers.get? i = some StopPC.returned) → s.closed = true) ∧
    (s.runPC = RunPC.sending → ∃ s2, step s Act.send = Outcome.ok s2) := by
  have hI := inv_exec (inv_init lw interval rv) h
  refine ⟨?_, ?_, ?_⟩
  · intro i hget
    have hmem := List.get?_mem hget
    have hcl := hI.returnedClosed _ hmem rfl
    exact ⟨hcl, hI.chClosedIffExited.mp hcl, hI.returnedBufEmpty _ hmem rfl⟩
  · intro i hget
    rcases hget with hget | hget
    · exact hI.stopperStopped _ (List.get?_mem hget) (Or.inl rfl)
    · exact hI.stopperStopped _ (List.get?_mem hget) (Or.inr rfl)
  · intro hpc
    have hclF : s.ch.closed = false := by
      cases hcc : s.ch.closed
      · rfl
      · exact absurd (hI.chClosedIffExited.mp hcc) (by simp [hpc])
    have hb1 : s.ch.buf.length ≤ 1 := by
      have hb := hI.bufLen
      rcases hI.sentForm with hs | hs <;> rw [hs] at hb
      · exact hb.trans (by simp)
      · simpa using hb
    have hlen : s.ch.buf.length < s.ch.cap := by
      rw [hI.cap100]
      omega
    refine ⟨{ s with
              ch := { s.ch with buf := s.ch.buf ++ [expiryEvent s.interval] },
              sent := s.sent ++ [expiryEvent s.interval],
              runPC := RunPC.stopping }, ?_⟩
    simp [step, hpc, hclF, hlen]

/-- C10: the event channel is created with capacity 100 and at most one
event is ever sent, so the buffer can never fill and the expiry-path
send can never block; with no consumer and no `Stop()` call the
background task still runs to completion and closes the channel. -/
theorem pw_buffered_send_never_blocks (lw : ListWatcher) (interval : Nat) (rv : GoTime) :
    (newPeriodicWatcher lw interval rv).ch.cap = 100 ∧
    (∀ acts s, exec (newPeriodicWatcher lw interval rv) acts = Outcome.ok s →
      s.sent.length ≤ 1 ∧ s.ch.buf.length < s.ch.cap ∧
      (s.runPC = RunPC.sending → ∃ s2, step s Act.send = Outcome.ok s2)) ∧
    (∃ s, exec (newPeriodicWatcher lw interval rv)
        [Act.timerFire, Act.send, Act.runStopCall, Act.closeCh] = Outcome.ok s ∧
      s.runPC = RunPC.exited ∧ s.ch.closed = true) := by
  refine ⟨rfl, ?_, ?_⟩
  · intro acts s h
    have hI := inv_exec (inv_init lw interval rv) h
    have hsl : s.sent.length ≤ 1 := by
      rcases hI.sentForm with hs | hs <;> rw [hs] <;> simp
    have hb1 : s.ch.buf.length ≤ 1 := hI.bufLen.trans hsl
    have hlen : s.ch.buf.length < s.ch.cap := by
      rw [hI.cap100]
      omega
    refine ⟨hsl, hlen, ?_⟩
    intro hpc
    have hclF : s.ch.closed = false := by
      cases hcc : s.ch.closed
      · rfl
      · exact absurd (hI.chClosedIffExited.mp hcc) (by simp [hpc])
    refine ⟨{ s with
              ch := { s.ch with buf := s.ch.buf ++ [expiryEvent s.interval] },
              sent := s.sent ++ [expiryEvent s.interval],
              runPC := RunPC.stopping }, ?_⟩
    simp [step, hpc, hclF, hlen]
  · refine ⟨{ lw := lw,
              interval := interval,
              rv := rv,
              ch := { cap := 100, buf := [expiryEvent interval], closed := true },
              doneClosed := true,
              closed := true,
              runPC := RunPC.exited,
              stoppers := [],
              sent := [expiryEvent interval],
              doneCloseCount := 1,
              chCloseCount := 1 },
      ?_, rfl, rfl⟩
    simp [exec, step, stopBody, newPeriodicWatcher]

/-! ## Concrete witnesses. -/

/-- A concrete `ListWatcher` configuration: an empty remote collection
and a 5 ns interval. -/
def cfgLW : ListWatcher := { fetchAll := Except.ok [], interval := 5 }

/-- The expiry path of a session that is never stopped. -/
def expiryTrace : List Act :=
  [Act.timerFire, Act.send, Act.runStopCall, Act.closeCh]

/-- The state after running `expiryTrace` from a fresh watcher. -/
def expiryFinal : PW :=
  { lw := cfgLW
    interval := 5
    rv := goZeroTime
    ch := { cap := 100, buf := [expiryEvent 5], closed := true }
    doneClosed := true
    closed := true
    runPC := RunPC.exited
    stoppers := []
    sent := [expiryEvent 5]
    doneCloseCount := 1
    chCloseCount := 1 }

theorem pw_expiry_exactly_one_event_witness :
    expiryFinal.sent = [expiryEvent 5] ∧ expiryFinal.ch.closed = true := by
  have h := (pw_expiry_exactly_one_event cfgLW 5 goZeroTime expiryTrace expiryFinal
    rfl (by decide)).1 rfl
  exact ⟨h.1, h.2.1⟩

/-- Two concurrent `Stop()` calls racing the stop path. -/
def stopTrace : List Act :=
  [Act.stopBegin, Act.stopBegin, Act.stopInner 0, Act.selectDone, Act.closeCh,
   Act.drainFin 0, Act.stopInner 1, Act.drainFin 1]

/-- The state after running `stopTrace` from a fresh watcher. -/
def stopFinal : PW :=
  { lw := cfgLW
    interval := 5
    rv := goZeroTime
    ch := { cap := 100, buf := [], closed := true }
    doneClosed := true
    closed := true
    runPC := RunPC.exited
    stoppers := [StopPC.returned, StopPC.returned]
    sent := []
    doneCloseCount := 1
    chCloseCount := 1 }

theorem pw_stop_idempotent_no_panic_witness :
    exec (newPeriodicWatcher cfgLW 5 goZeroTime) stopTrace ≠ Outcome.panicked ∧
    stopFinal.doneCloseCount ≤ 1 ∧ stopFinal.chCloseCount ≤ 1 := by
  have h := pw_stop_idempotent_no_panic cfgLW 5 goZeroTime stopTrace
  have h2 := h.2 stopFinal rfl
  exact ⟨h.1, h2.1, h2.2.1⟩

/-- A single `Stop()` call that wins before the timer ever fires. -/
def stoppedTrace : List Act :=
  [Act.stopBegin, Act.stopInner 0, Act.selectDone, Act.closeCh, Act.drainFin 0]

/-- The state after running `stoppedTrace` from a fresh watcher. -/
def stoppedFinal : PW :=
  { lw := cfgLW
    interval := 5
    rv := goZeroTime
    ch := { cap := 100, buf := [], closed := true }
    doneClosed := true
    closed := true
    runPC := RunPC.exited
    stoppers := [StopPC.returned]
    sent := []
    doneCloseCount := 1
    chCloseCount := 1 }

theorem pw_stop_before_expiry_no_events_witness :
    stoppedFinal.sent = [] ∧
    ∃ more s2, Act.timerFire ∉ more ∧ exec stoppedFinal more = Outcome.ok s2 ∧
      s2.ch.closed = true ∧ s2.sent = [] := by
  have h := pw_stop_before_expiry_no_events cfgLW 5 goZeroTime stoppedTrace stoppedFinal
    rfl (by decide) ⟨0, by decide⟩
  exact ⟨h.1, h.2.2⟩

theorem pw_stop_drains_until_closed_witness :
    stopFinal.ch.closed = true ∧ stopFinal.runPC = RunPC.exited ∧
    stopFinal.ch.buf = [] := by
  have h := pw_stop_drains_until_closed cfgLW 5 goZeroTime stopTrace stopFinal rfl
  exact h.1 0 rfl

/-- Options carrying a malformed resource-version token. -/
def invalidOptions : ListOptions :=
  { labelSelector := "", fieldSelector := "", resourceVersion := "not-a-timestamp",
    timeoutSeconds := none }

/-- Options carrying a well-formed RFC3339 resource-version token. -/
def validOptions : ListOptions :=
  { labelSelector := "", fieldSelector := "", resourceVersion := "2024-05-01T12:00:00Z",
    timeoutSeconds := none }

theorem watch_invalid_token_fails_fast_witness :
    cfgLW.Watch invalidOptions =
      Except.error "parsing time not-a-timestamp as RFC3339: cannot parse" ∧
    cfgLW.Watch validOptions =
      Except.ok (newPeriodicWatcher cfgLW cfgLW.interval ⟨2024, 5, 1, 12, 0, 0, 0, 0⟩) := by
  have h1 := (watch_invalid_token_fails_fast cfgLW invalidOptions).1
    "parsing time not-a-timestamp as RFC3339: cannot parse" (by decide)
  have h2 := (watch_invalid_token_fails_fast cfgLW validOptions).2
    ⟨2024, 5, 1, 12, 0, 0, 0, 0⟩ (by decide)
  exact ⟨h1, h2.1⟩

/-- A cached success record. -/
def witnessJobB : Job :=
  { id := "b", state := "success", startTime := 0,
    url := "https://example.invalid/b", labelSet := [("state", "success")] }

/-- A concrete indexer: key `b` present, key `x` erroring, all other
keys absent. -/
def witnessIndexer : Indexer :=
  { getByKey := fun id =>
      if id = "b" then Except.ok (some witnessJobB)
      else if id = "x" then Except.error (KError.other "indexer failure")
      else Except.ok none
    storeList := [witnessJobB]
    accessorLabels := fun j => Except.ok j.labelSet }

theorem lister_get_cases_witness :
    ((NewLister witnessIndexer).Get "b").1 = Except.ok witnessJobB ∧
    ((NewLister witnessIndexer).Get "c").1 =
      Except.error (KError.statusNotFound ⟨"search.openshift.io", "prow"⟩ "c") ∧
    ((NewLister witnessIndexer).Get "x").1 = Except.error (KError.other "indexer failure") ∧
    ((NewLister witnessIndexer).Get "b").2 = NewLister witnessIndexer := by
  refine ⟨(lister_get_cases witnessIndexer "b").2.2.2 witnessJobB (by decide),
    ((lister_get_cases witnessIndexer "c").2.2.1 (by decide)).1,
    (lister_get_cases witnessIndexer "x").2.1 (KError.other "indexer failure") (by decide),
    (lister_get_cases witnessIndexer "b").1⟩

/-- A cached failure record. -/
def jobFailureA : Job :=
  { id := "a", state := "failure", startTime := 0,
    url := "https://example.invalid/a", labelSet := [("state", "failure")] }

/-- A selector matching records labelled `state=failure`. -/
def failureSelector : Selector :=
  { requirements := [fun lbls => decide (("state", "failure") ∈ lbls)] }

/-- An indexer seeded with one failure and one success record. -/
def seededIndexer : Indexer :=
  { getByKey := fun _ => Except.ok none
    storeList := [jobFailureA, witnessJobB]
    accessorLabels := fun j => Except.ok j.labelSet }

theorem lister_list_selector_witness :
    ((NewLister seededIndexer).ListJobs failureSelector).1 = [jobFailureA] ∧
    ((NewLister seededIndexer).ListJobs failureSelector).2 = none := by
  have h := (lister_list_selector seededIndexer failureSelector).1 (fun j _ => rfl)
  exact ⟨h.1.trans (by decide), h.2.1⟩

/-- Options carrying an empty resource-version token. -/
def emptyRVOptions : ListOptions :=
  { labelSelector := "", fieldSelector := "", resourceVersion := "",
    timeoutSeconds := none }

theorem watch_empty_token_accepted_witness :
    unmarshalQueryParameter emptyRVOptions.resourceVersion = Except.ok goZeroTime ∧
    cfgLW.Watch emptyRVOptions =
      Except.ok (newPeriodicWatcher cfgLW cfgLW.interval goZeroTime) := by
  have h := watch_empty_token_accepted cfgLW emptyRVOptions rfl
  exact ⟨h.1, h.2.1⟩

/-- The state with the timer fired and the send about to happen. -/
def sendingState : PW :=
  { lw := cfgLW
    interval := 5
    rv := goZeroTime
    ch := { cap := 100, buf := [], closed := false }
    doneClosed := false
    closed := false
    runPC := RunPC.sending
    stoppers := []
    sent := []
    doneCloseCount := 0
    chCloseCount := 0 }

theorem pw_buffered_send_never_blocks_witness :
    sendingState.sent.length ≤ 1 ∧
    sendingState.ch.buf.length < sendingState.ch.cap ∧
    ∃ s2, step sendingState Act.send = Outcome.ok s2 := by
  have h := (pw_buffered_send_never_blocks cfgLW 5 goZeroTime).2.1
    [Act.timerFire] sendingState rfl
  exact ⟨h.1, h.2.1, h.2.2 rfl⟩

end CiSearch
